import Mathlib

/-!
# Verification of the Real-Time Negotiation Telemetry Engine

Shallow embedding of the algorithmic core of the repository
(`src/utils/AlgorithmicCore.ts`, `src/store/useAppStore.ts`,
`src/services/ScenarioInjectionModule.ts`, the `GeminiDeepThinkService`,
`src/public/audio-processor.worklet.js` and
`src/hooks/useVoiceStreamProcessor.ts`), together with proofs of the
specified properties.

Modelling conventions:
* JavaScript strings are modelled as `String`/`List Char` (code units);
* JavaScript numbers are modelled as `ℚ` (the arithmetic used by the
  functions below is exact on the inputs of interest);
* the 16-bit integer store of `Int16Array` is modelled by truncation
  toward zero followed by wrapping into `[-32768, 32767]`;
* asynchronous collaborators (the fetch endpoint, the live session) are
  modelled by explicit oracles / event functions.
-/

/-! ## Levenshtein deviation (`src/utils/AlgorithmicCore.ts`, lines 7–37)

`computeLevenshteinDeviation` fills a `(sourceLen+1) × (targetLen+1)` matrix
with `matrix[i][0] = i`, `matrix[0][j] = j` and
`matrix[i][j] = min(matrix[i-1][j] + 1, matrix[i][j-1] + 1,
matrix[i-1][j-1] + cost)` where `cost` is `0` iff
`sourceVector[i-1] === targetVector[j-1]`.  `levMatrixEntry s t i j` is the
value `matrix[i][j]` of that recurrence. -/

variable {α : Type} [DecidableEq α]

/-- The DP matrix entry `matrix[i][j]` of `computeLevenshteinDeviation`. -/
def levMatrixEntry (s t : List α) : Nat → Nat → Nat
  | 0, j => j
  | i + 1, 0 => i + 1
  | i + 1, j + 1 =>
    min (levMatrixEntry s t i (j + 1) + 1)
      (min (levMatrixEntry s t (i + 1) j + 1)
        (levMatrixEntry s t i j + (if s[i]? = t[j]? then 0 else 1)))

/-- `computeLevenshteinDeviation` from `src/utils/AlgorithmicCore.ts`:
early returns for empty inputs, otherwise the bottom-right DP matrix entry. -/
def computeLevenshteinDeviation (sourceVector targetVector : String) : Nat :=
  let sourceLen := sourceVector.length
  let targetLen := targetVector.length
  if sourceLen = 0 then targetLen
  else if targetLen = 0 then sourceLen
  else levMatrixEntry sourceVector.data targetVector.data sourceLen targetLen

/-- The classic recursive unit-cost Levenshtein edit distance
(the specification-side definition: unit insert/delete/substitute cost). -/
def lev : List α → List α → Nat
  | [], ys => ys.length
  | x :: xs, [] => (x :: xs).length
  | x :: xs, y :: ys =>
    min (lev xs (y :: ys) + 1)
      (min (lev (x :: xs) ys + 1)
        (lev xs ys + (if x = y then 0 else 1)))

/-- Alignments between two lists: `Aligned s t n` holds when `s` can be
turned into `t` by a left-to-right alignment of total cost `n`
(unit cost for insert/delete, `0`/`1` for substitution). -/
inductive Aligned : List α → List α → Nat → Prop
  | nil : Aligned [] [] 0
  | del (x : α) {s t : List α} {n : Nat} :
      Aligned s t n → Aligned (x :: s) t (n + 1)
  | ins (y : α) {s t : List α} {n : Nat} :
      Aligned s t n → Aligned s (y :: t) (n + 1)
  | sub (x y : α) {s t : List α} {n : Nat} :
      Aligned s t n → Aligned (x :: s) (y :: t) (n + (if x = y then 0 else 1))

/-! ## Whitespace tokenisation (JavaScript `String.prototype.split(/\s+/)`)

`transcript.trim().split(/\s+/)` and `lowerText.split(/\s+/)` are modelled
on `List Char`.  JavaScript's `split(/\s+/)` returns the maximal runs of
non-whitespace characters, together with a leading (resp. trailing) empty
token when the string begins (resp. ends) with whitespace, and returns
`[""]` on the empty string. -/

/-- Whitespace test for one character (JavaScript `\s` on the inputs of
interest). -/
def wsChar (c : Char) : Bool := c.isWhitespace

/-- The maximal runs of non-whitespace characters of a list, in order. -/
def nonWsRuns : List Char → List (List Char)
  | [] => []
  | c :: cs =>
    if wsChar c then nonWsRuns cs
    else
      match cs with
      | [] => [[c]]
      | d :: _ =>
        if wsChar d then [c] :: nonWsRuns cs
        else (c :: (nonWsRuns cs).headD []) :: (nonWsRuns cs).tail

/-- JavaScript `s.trim()`: drop whitespace from both ends. -/
def trimWs (l : List Char) : List Char :=
  ((l.dropWhile wsChar).reverse.dropWhile wsChar).reverse

/-- JavaScript `s.split(/\s+/)`. -/
def jsSplitWs (l : List Char) : List (List Char) :=
  if l = [] then [[]]
  else
    (if wsChar (l.headD (Char.ofNat 32)) then [([] : List Char)] else []) ++
      nonWsRuns l ++
      (if wsChar (l.getLastD (Char.ofNat 32)) then [([] : List Char)] else [])

/-- JavaScript `s.toLowerCase()` (ASCII-faithful). -/
def jsToLower (s : String) : String := String.mk (s.data.map Char.toLower)

/-- `w.toLowerCase().replace(/[^a-z]/g, '')`: lower-case, then keep only
ASCII letters `a`–`z`. -/
def cleanWord (w : List Char) : List Char :=
  (w.map Char.toLower).filter Char.isLower

/-- The filler lexicon of `calculateVerbalVelocityScore`. -/
def hesitationMarkers : List (List Char) :=
  (["um", "uh", "like", "actually", "basically", "sort of", "mean",
    "you know"] : List String).map String.data

/-- `calculateVerbalVelocityScore` from `src/utils/AlgorithmicCore.ts`,
lines 42–60: returns `(velocity, hesitationCount)`. -/
def calculateVerbalVelocityScore (transcript : String)
    (durationSeconds : ℚ) : ℚ × Nat :=
  if durationSeconds ≤ 0 then (0, 0)
  else
    let words := jsSplitWs (trimWs transcript.data)
    let hesitationCount :=
      words.countP (fun w => hesitationMarkers.contains (cleanWord w))
    (((words.length : ℚ) / durationSeconds) * 60, hesitationCount)

/-- The whitespace-delimited word count of a string, as the specification
words it: the number of maximal non-whitespace runs. -/
def specWordCount (transcript : String) : Nat :=
  (nonWsRuns transcript.data).length

/-! ## `SentimentMatrixCalculator.analyze`
(`src/utils/AlgorithmicCore.ts`, lines 79–175) -/

/-- The output record of `SentimentMatrixCalculator.analyze`
(`RhetoricalImpactFactor` in `src/types.ts`). -/
structure RhetoricalImpactFactor where
  clarityScore : ℚ
  aggressionIndex : ℚ
  logicDensity : ℚ
  emotionalResonanceIndex : ℚ
  confidenceScore : ℚ
  deriving DecidableEq

/-- `AGGRESSION_LEXICON`. -/
def AGGRESSION_LEXICON : List (List Char × ℚ) :=
  [("demand".data, 0.8), ("must".data, 0.7), ("unacceptable".data, 0.9),
   ("final".data, 0.6), ("refuse".data, 0.8), ("insist".data, 0.7),
   ("ridiculous".data, 0.8), ("fail".data, 0.6), ("hostile".data, 0.9),
   ("now".data, 0.5), ("immediately".data, 0.6)]

/-- `CONCILIATORY_LEXICON`. -/
def CONCILIATORY_LEXICON : List (List Char × ℚ) :=
  [("agree".data, 0.6), ("understand".data, 0.5), ("collaborate".data, 0.7),
   ("flexible".data, 0.8), ("help".data, 0.5), ("fair".data, 0.6),
   ("together".data, 0.5), ("potential".data, 0.4), ("perhaps".data, 0.3),
   ("consider".data, 0.4)]

/-- `LOGIC_LEXICON`. -/
def LOGIC_LEXICON : List (List Char) :=
  (["because", "therefore", "data", "statistically", "result", "proven",
    "consequently", "analysis", "metrics", "roi", "yield"] :
      List String).map String.data

/-- Weight of a cleaned token in the aggression lexicon (`0` if absent). -/
def aggWeight (w : List Char) : ℚ := (AGGRESSION_LEXICON.lookup w).getD 0

/-- Weight of a cleaned token in the conciliatory lexicon (`0` if absent). -/
def concWeight (w : List Char) : ℚ := (CONCILIATORY_LEXICON.lookup w).getD 0

/-- `SentimentMatrixCalculator.analyze`: the composite heuristic matrix
calculation, exactly as in the source (lexical scan, normalisation,
clarity, resonance and confidence, each clamped as in the code). -/
def analyze (linguisticArtifact : String) (spectralIntensity : ℚ)
    (hesitationCount : Nat) : RhetoricalImpactFactor :=
  let lowerText := linguisticArtifact.data.map Char.toLower
  let words := jsSplitWs lowerText
  let cleaned := words.map cleanWord
  let aggressionScore := (cleaned.map (fun w => aggWeight w * 100)).sum
  let logicScore :=
    (cleaned.map (fun w => if LOGIC_LEXICON.contains w then (15 : ℚ) else 0)).sum
  let valenceSum := (cleaned.map (fun w => concWeight w - aggWeight w)).sum
  let normalizedAggression := min 100 aggressionScore
  let normalizedLogic := min 100 logicScore
  let clarity :=
    min 100 (max 0 (100 - (linguisticArtifact.length : ℚ) * 0.02 +
      normalizedLogic * 0.3))
  let resonance1 := if words.length < 3 then valenceSum * 0.5 else valenceSum
  let resonance2 := resonance1 * (1 + spectralIntensity * 2)
  let resonance3 :=
    if |resonance2| < 0.1 ∧ spectralIntensity > 0.2 then -spectralIntensity
    else resonance2
  let emotionalResonanceIndex := max (-1) (min 1 resonance3)
  let confidence1 := (1 : ℚ) - (hesitationCount : ℚ) * 0.15
  let confidence2 :=
    if 0 < words.length ∧ spectralIntensity < 0.05 then confidence1 - 0.2
    else confidence1
  let confidence4 :=
    confidence2 + normalizedLogic * 0.002 + normalizedAggression * 0.002
  let confidenceScore := max 0 (min 1 confidence4)
  ⟨clarity, normalizedAggression, normalizedLogic, emotionalResonanceIndex,
    confidenceScore⟩

/-! ## Entropy-metric window (`src/store/useAppStore.ts`, lines 71–74) -/

/-- `addEntropyMetric`: `[...state.entropyMetrics.slice(-19), metric]`.
`slice(-19)` keeps the last (at most) 19 entries, i.e. drops
`length - 19` from the front. -/
def addEntropyMetric {M : Type} (metrics : List M) (metric : M) : List M :=
  metrics.drop (metrics.length - 19) ++ [metric]

/-! ## Offline simulation (`src/services/ScenarioInjectionModule.ts`)

The rule matcher of the source is `new RegExp(m.triggerCondition).test
(lowerPayload)`; the regular-expression engine is external to the
repository, so the matcher is a parameter `test`.  For trigger patterns
that are literal strings (as in the specification's examples) the
JavaScript test is substring containment, modelled by `hasSubstr`. -/

/-- `ProbabilityManifold` from `src/types.ts`. -/
structure ProbabilityManifold where
  triggerCondition : String
  syntheticResponse : String
  outcomeYield : ℚ
  deriving DecidableEq

/-- `SimulationScenarioMatrix` from `src/types.ts` (fields used by the
module). -/
structure SimulationScenarioMatrix where
  id : String
  designation : String
  targetRhetoricPattern : String
  probabilityManifolds : List ProbabilityManifold
  deriving DecidableEq

/-- `getScenarioById`: `this.scenarioRegistry.find(s => s.id === id)`. -/
def getScenarioById (registry : List SimulationScenarioMatrix)
    (id : String) : Option SimulationScenarioMatrix :=
  registry.find? (fun s => s.id == id)

/-- `processOfflineSimulation`, parameterised by the rule matcher `test`
(the JavaScript `RegExp.test`, applied to a trigger pattern and the
lower-cased payload). -/
def processOfflineSimulation (test : String → String → Bool)
    (registry : List SimulationScenarioMatrix)
    (scenarioId userPayload : String) : String :=
  match getScenarioById registry scenarioId with
  | none => "ERROR: SCENARIO_DATA_CORRUPTION"
  | some scenario =>
    let lowerPayload := jsToLower userPayload
    match scenario.probabilityManifolds.find?
        (fun m => test m.triggerCondition lowerPayload) with
    | some m => "[SIMULATION_MODE]: " ++ m.syntheticResponse
    | none =>
      "[SIMULATION_MODE]: I am not compelled by that argument. Please restructure your leverage."

/-- Substring containment on character lists. -/
def hasSubstr : List Char → List Char → Bool
  | pat, [] => pat.isEmpty
  | pat, c :: rest => pat.isPrefixOf (c :: rest) || hasSubstr pat rest

/-- The JavaScript regex test for a literal (metacharacter-free) pattern:
substring containment. -/
def substrTest (pat s : String) : Bool := hasSubstr pat.data s.data

/-- Demonstration scenario of the specification's §8 example:
rule A with pattern `reject`, rule B with pattern `agree`. -/
def demoScenario : SimulationScenarioMatrix :=
  ⟨"demo", "DEMO", "none",
    [⟨"reject", "RESPONSE_A", 10⟩, ⟨"agree", "RESPONSE_B", 20⟩]⟩

/-- A registry holding only the demonstration scenario. -/
def demoRegistry : List SimulationScenarioMatrix := [demoScenario]

/-! ## `GeminiDeepThinkService.executeDeepThought`
(`src/unnamed/part_006`, lines 11–56; `CircuitBreakerThresholds` from
`src/types.ts`, lines 72–75) -/

/-- `CircuitBreakerThresholds.MAX_RETRY_ATTEMPTS`. -/
def MAX_RETRY_ATTEMPTS : Nat := 3

/-- `CircuitBreakerThresholds.MAX_LATENCY_MS`. -/
def MAX_LATENCY_MS : Nat := 5000

/-- Outcome of one remote attempt: a thrown/failed round trip, or a
successful round trip delivering `data.response` (the empty string also
standing for a missing field, both falsy in JavaScript). -/
inductive AttemptResult where
  | fail
  | ok (response : String)
  deriving DecidableEq

/-- The `while (attempts < MAX_RETRY_ATTEMPTS)` loop of
`executeDeepThought`, with `fuel = MAX_RETRY_ATTEMPTS - attempts`.
Returns `(result, backoff sleeps in ms, number of attempts performed)`. -/
def goDeepThought (oracle : Nat → AttemptResult) : Nat → Nat → String × List Nat × Nat
  | 0, _ => ("SYSTEM_FAILURE", [], 0)
  | fuel + 1, attempts =>
    match oracle attempts with
    | .ok r => (if r = "" then "DATA_CORRUPTION_EMPTY_RESPONSE" else r, [], 1)
    | .fail =>
      if fuel = 0 then
        ("CIRCUIT_BREAKER_ACTIVATED: UNABLE_TO_PROCESS_THOUGHT_PATTERN", [], 1)
      else
        let rest := goDeepThought oracle fuel (attempts + 1)
        (rest.1, 2 ^ (attempts + 1) * 1000 :: rest.2.1, rest.2.2 + 1)

/-- `executeDeepThought`, with the remote collaborator abstracted as an
oracle giving the outcome of each attempt. -/
def executeDeepThought (oracle : Nat → AttemptResult) : String × List Nat × Nat :=
  goDeepThought oracle MAX_RETRY_ATTEMPTS 0

/-! ## 16-bit PCM quantisation
(`src/public/audio-processor.worklet.js`, lines 22–29, and `createBlob` in
`src/hooks/useVoiceStreamProcessor.ts`, lines 37–50) -/

/-- JavaScript truncation toward zero (the integer conversion step of an
`Int16Array` store). -/
def jsTrunc (x : ℚ) : ℤ := if 0 ≤ x then ⌊x⌋ else -⌊-x⌋

/-- The `Int16Array` store: truncate toward zero, wrap modulo `2^16` into
`[-32768, 32767]`. -/
def toInt16 (x : ℚ) : ℤ := (jsTrunc x + 32768) % 65536 - 32768

/-- One sample of the worklet's `floatTo16BitPCM`:
`s = max(-1, min(1, x)); int16[i] = s < 0 ? s * 0x8000 : s * 0x7FFF`. -/
def floatTo16BitPCMSample (x : ℚ) : ℤ :=
  let s := max (-1) (min 1 x)
  toInt16 (if s < 0 then s * 32768 else s * 32767)

/-- One sample of the hook's `createBlob`: `int16[i] = data[i] * 32768`
(no clamp, uniform scale). -/
def createBlobSample (x : ℚ) : ℤ := toInt16 (x * 32768)

/-- The quantiser as the specification words it: clamp to `[-1,1]`, scale
negative values by `32768` and non-negative ones by `32767`, truncate
toward zero. -/
def specPCMQuantize (x : ℚ) : ℤ :=
  let s := max (-1) (min 1 x)
  jsTrunc (if s < 0 then s * 32768 else s * 32767)

/-! ## Voice link lifecycle (`src/hooks/useVoiceStreamProcessor.ts`)

The state touched by `initiateNeuralLink`, the `onopen` callback of the
connect attempt, and `severNeuralLink`.  Each field models one piece of
React state or one ref of the hook. -/

/-- The hook state relevant to the sever/stale-completion interaction. -/
structure LinkState where
  isConnectionActive : Bool
  connectionError : Option String
  retryAttempt : Nat
  retryTimerPending : Bool
  streamAcquired : Bool
  inputCtxOpen : Bool
  outputCtxOpen : Bool
  audioWired : Bool
  deriving DecidableEq

/-- The idle initial state of the hook. -/
def initialLinkState : LinkState := ⟨false, none, 0, false, false, false, false, false⟩

/-- The synchronous part of `initiateNeuralLink` up to issuing
`ai.live.connect`: clear any retry timer, open the audio contexts,
acquire the microphone stream. -/
def initiateNeuralLinkStart (s : LinkState) : LinkState :=
  { s with retryTimerPending := false, inputCtxOpen := true,
           outputCtxOpen := true, streamAcquired := true }

/-- The `onopen` callback of the connect attempt (lines 125–153): set the
connection active, clear the error, reset the retry count; then, if the
input context and the stream are still present, wire the script processor. -/
def onopenCallback (s : LinkState) : LinkState :=
  let s1 := { s with isConnectionActive := true, connectionError := none,
                     retryAttempt := 0 }
  if s1.inputCtxOpen ∧ s1.streamAcquired then { s1 with audioWired := true }
  else s1

/-- `severNeuralLink` (lines 217–238): cancel the retry timer, reset the
retry count, stop the tracks, close both audio contexts, mark the
connection inactive and clear the error.  (No generation token exists in
the source, and the pending session promise is not cancelled.) -/
def severNeuralLink (s : LinkState) : LinkState :=
  { s with retryTimerPending := false, retryAttempt := 0,
           streamAcquired := false, inputCtxOpen := false,
           outputCtxOpen := false, isConnectionActive := false,
           connectionError := none }

/-! ## Theorems -/

/-- C8: the code has no generation-token guard.  From idle, start a
connect (synchronous part of `initiateNeuralLink`), sever the link, then
let the in-flight attempt's `onopen` callback fire: the severed link is
marked active again by the stale completion (though no audio is wired,
the refs having been cleared). -/
theorem c8_stale_onopen_resurrects_severed_link :
    (severNeuralLink (initiateNeuralLinkStart initialLinkState)).isConnectionActive
        = false ∧
    (onopenCallback (severNeuralLink
        (initiateNeuralLinkStart initialLinkState))).isConnectionActive = true ∧
    (onopenCallback (severNeuralLink
        (initiateNeuralLinkStart initialLinkState))).audioWired = false :=
  ⟨rfl, rfl, rfl⟩

/-- `toInt16` is the identity on values whose truncation is already a
16-bit integer. -/
theorem toInt16_id (x : ℚ) (h1 : -32768 ≤ jsTrunc x) (h2 : jsTrunc x ≤ 32767) :
    toInt16 x = jsTrunc x := by
  unfold toInt16
  omega

/-- Truncation toward zero stays within any integer bounds of its input. -/
theorem jsTrunc_mem (lo hi : ℤ) (x : ℚ) (hlo : (lo : ℚ) ≤ x)
    (hhi : x ≤ (hi : ℚ)) : lo ≤ jsTrunc x ∧ jsTrunc x ≤ hi := by
  unfold jsTrunc
  split
  · refine ⟨?_, ?_⟩
    · calc lo = ⌊(lo : ℚ)⌋ := (Int.floor_intCast lo).symm
        _ ≤ ⌊x⌋ := Int.floor_le_floor hlo
    · calc ⌊x⌋ ≤ ⌊(hi : ℚ)⌋ := Int.floor_le_floor hhi
        _ = hi := Int.floor_intCast hi
  · have hub : ⌊-x⌋ ≤ -lo := by
      calc ⌊-x⌋ ≤ ⌊((-lo : ℤ) : ℚ)⌋ := Int.floor_le_floor (by push_cast; linarith)
        _ = -lo := Int.floor_intCast _
    have hlb : -hi ≤ ⌊-x⌋ := by
      calc (-hi : ℤ) = ⌊((-hi : ℤ) : ℚ)⌋ := (Int.floor_intCast _).symm
        _ ≤ ⌊-x⌋ := Int.floor_le_floor (by push_cast; linarith)
    omega

/-- C7: the worklet's `floatTo16BitPCM` does follow the specified
quantisation (clamp to `[-1,1]`, scale negatives by `32768` and
non-negatives by `32767`, truncate toward zero), but the hook's
`createBlob` does not: at sample `0.5` the worklet yields `16383` while
`createBlob` yields `16384`, and at sample `1.0` the worklet yields
`32767` while `createBlob` wraps to `-32768` — the two encoders are not
bit-for-bit identical. -/
theorem c7_pcm_quantizers :
    (∀ x : ℚ, floatTo16BitPCMSample x = specPCMQuantize x) ∧
    floatTo16BitPCMSample 0.5 = 16383 ∧ createBlobSample 0.5 = 16384 ∧
    floatTo16BitPCMSample 1 = 32767 ∧ createBlobSample 1 = -32768 := by
  refine ⟨fun x => ?_, ?_, ?_, ?_, ?_⟩
  · unfold floatTo16BitPCMSample specPCMQuantize
    have hs1 : (-1 : ℚ) ≤ max (-1) (min 1 x) := le_max_left _ _
    have hs2 : max (-1) (min 1 x) ≤ 1 := max_le (by norm_num) (min_le_left _ _)
    by_cases hneg : max (-1) (min 1 x) < 0
    · simp only [if_pos hneg]
      refine toInt16_id _ ?_ ?_
      · exact (jsTrunc_mem (-32768) 32767 _ (by push_cast; nlinarith)
          (by push_cast; nlinarith)).1
      · exact (jsTrunc_mem (-32768) 32767 _ (by push_cast; nlinarith)
          (by push_cast; nlinarith)).2
    · simp only [if_neg hneg]
      push_neg at hneg
      refine toInt16_id _ ?_ ?_
      · exact (jsTrunc_mem (-32768) 32767 _ (by push_cast; nlinarith)
          (by push_cast; nlinarith)).1
      · exact (jsTrunc_mem (-32768) 32767 _ (by push_cast; nlinarith)
          (by push_cast; nlinarith)).2
  · norm_num [floatTo16BitPCMSample, toInt16, jsTrunc, min_def, max_def]
  · norm_num [createBlobSample, toInt16, jsTrunc]
  · norm_num [floatTo16BitPCMSample, toInt16, jsTrunc, min_def, max_def]
  · norm_num [createBlobSample, toInt16, jsTrunc]

/-- C5: the mumbling penalty is applied on empty input even though no
words were spoken, because `"".split(/\s+/)` is `[""]`, never empty:
`analyze("", 0, 0)` yields confidence `0.8`, not the `1.0` the claimed
formula (penalty iff words were spoken and intensity < 0.05) gives.
This contradicts the code's own comment "Only apply if there are words
spoken". -/
theorem c5_mumble_penalty_applied_without_words :
    (analyze "" 0 0).confidenceScore = 4 / 5 ∧
    (analyze "" 0 0).confidenceScore ≠ 1 ∧
    specWordCount "" = 0 := by
  have h : (analyze "" 0 0).confidenceScore = 4 / 5 := by
    norm_num +decide [analyze, jsSplitWs, cleanWord, aggWeight, concWeight,
      AGGRESSION_LEXICON, CONCILIATORY_LEXICON, LOGIC_LEXICON, min_def,
      max_def, List.lookup]
  refine ⟨h, by rw [h]; norm_num, by decide⟩


theorem foldl_addEntropyMetric_eq {M : Type} :
    ∀ (ms : List M) (init : List M) (m : M),
      List.foldl addEntropyMetric init (m :: ms) =
        (init ++ m :: ms).drop ((init ++ m :: ms).length - 20) := by
  intro ms
  induction ms with
  | nil =>
    intro init m
    show addEntropyMetric init m = _
    rw [addEntropyMetric, List.drop_append_eq_append_drop,
      show (init ++ [m]).length - 20 - init.length = 0 by simp,
      List.drop_zero]
    congr 2
    simp only [List.length_append, List.length_cons, List.length_nil]
    omega
  | cons m' ms ih =>
    intro init m
    rw [List.foldl_cons, ih]
    have hA : (init ++ m :: m' :: ms).drop (init.length - 19) =
        addEntropyMetric init m ++ m' :: ms := by
      rw [List.drop_append_eq_append_drop,
        show init.length - 19 - init.length = 0 by omega,
        List.drop_zero, addEntropyMetric, List.append_assoc,
        List.singleton_append]
    rw [← hA, List.drop_drop, List.length_drop]
    congr 1
    simp only [List.length_append, List.length_cons]
    omega

/-- C2: the entropy-metric window of `addEntropyMetric` never exceeds 20
entries, and after more than 20 appends to an initially empty window it
holds exactly the 20 most recently appended metrics in insertion order. -/
theorem c2_entropy_window (M : Type) :
    (∀ (metrics : List M) (metric : M),
      (addEntropyMetric metrics metric).length ≤ 20) ∧
    (∀ ms : List M, 20 < ms.length →
      List.foldl addEntropyMetric [] ms = ms.drop (ms.length - 20)) := by
  constructor
  · intro metrics metric
    simp only [addEntropyMetric, List.length_append, List.length_drop,
      List.length_cons, List.length_nil]
    omega
  · intro ms hms
    match ms, hms with
    | m :: ms, _ =>
      rw [foldl_addEntropyMetric_eq, List.nil_append]

/-- Witness for C2 at a concrete run of 21 appends. -/
theorem c2_entropy_window_witness :
    20 < (List.range 21).length ∧
    List.foldl addEntropyMetric [] (List.range 21) =
      (List.range 21).drop ((List.range 21).length - 20) :=
  ⟨by simp, (c2_entropy_window ℕ).2 (List.range 21) (by simp)⟩

/-- Each run of `goDeepThought` performs at most `fuel` attempts. -/
theorem goDeepThought_calls_le (oracle : Nat → AttemptResult) :
    ∀ fuel attempts, (goDeepThought oracle fuel attempts).2.2 ≤ fuel := by
  intro fuel
  induction fuel with
  | zero => intro a; simp [goDeepThought]
  | succ n ih =>
    intro a
    simp only [goDeepThought]
    cases oracle a with
    | ok r => simp
    | fail =>
      by_cases hn : n = 0
      · simp [hn]
      · simpa [hn] using Nat.succ_le_succ (ih (a + 1))

/-- With fuel left, at least one attempt is made. -/
theorem goDeepThought_calls_pos (oracle : Nat → AttemptResult)
    (fuel attempts : Nat) (h : fuel ≠ 0) :
    1 ≤ (goDeepThought oracle fuel attempts).2.2 := by
  match fuel, h with
  | n + 1, _ =>
    simp only [goDeepThought]
    cases oracle attempts with
    | ok r => simp
    | fail =>
      by_cases hn : n = 0
      · simp [hn]
      · simp [hn]

/-- The backoff sleeps of a run are exponential in the attempt index:
after the `k`-th consecutive failure (starting at `attempts`), the run
sleeps `2^(attempts+k+1) * 1000` ms. -/
theorem goDeepThought_sleeps (oracle : Nat → AttemptResult) :
    ∀ fuel attempts, (goDeepThought oracle fuel attempts).2.1 =
      (List.range ((goDeepThought oracle fuel attempts).2.2 - 1)).map
        (fun k => 2 ^ (attempts + k + 1) * 1000) := by
  intro fuel
  induction fuel with
  | zero => intro a; simp [goDeepThought]
  | succ n ih =>
    intro a
    simp only [goDeepThought]
    cases oracle a with
    | ok r => simp
    | fail =>
      by_cases hn : n = 0
      · simp [hn]
      · simp only [if_neg hn]
        have hpos := goDeepThought_calls_pos oracle n (a + 1) hn
        have hrw : (goDeepThought oracle n (a + 1)).2.2 - 1 + 1 =
            (goDeepThought oracle n (a + 1)).2.2 + 1 - 1 := by omega
        calc 2 ^ (a + 1) * 1000 :: (goDeepThought oracle n (a + 1)).2.1
            = 2 ^ (a + 1) * 1000 ::
              (List.range ((goDeepThought oracle n (a + 1)).2.2 - 1)).map
                (fun k => 2 ^ (a + 1 + k + 1) * 1000) := by rw [ih]
          _ = (List.range ((goDeepThought oracle n (a + 1)).2.2 - 1 + 1)).map
                (fun k => 2 ^ (a + k + 1) * 1000) := by
              rw [List.range_succ_eq_map, List.map_cons, List.map_map]
              apply congrArg₂ List.cons
              · norm_num
              · exact List.map_congr_left fun k _ => by
                  show 2 ^ (a + 1 + k + 1) * 1000 = 2 ^ (a + (k + 1) + 1) * 1000
                  have he : a + 1 + k + 1 = a + (k + 1) + 1 := by omega
                  rw [he]
          _ = _ := by rw [hrw]

/-- C4: `executeDeepThought` attempts the remote call at most
`MAX_RETRY_ATTEMPTS = 3` times, sleeps exponentially growing backoffs
between consecutive failed attempts, and on three consecutive failures
returns the circuit-breaker sentinel string (it never propagates the
failure, the model being total). -/
theorem c4_deep_thought_retries :
    (∀ oracle : Nat → AttemptResult,
      (executeDeepThought oracle).2.2 ≤ MAX_RETRY_ATTEMPTS) ∧
    (∀ oracle : Nat → AttemptResult,
      (executeDeepThought oracle).2.1 =
        (List.range ((executeDeepThought oracle).2.2 - 1)).map
          (fun k => 2 ^ (k + 1) * 1000)) ∧
    (∀ oracle : Nat → AttemptResult,
      (∀ i, i < MAX_RETRY_ATTEMPTS → oracle i = .fail) →
      executeDeepThought oracle =
        ("CIRCUIT_BREAKER_ACTIVATED: UNABLE_TO_PROCESS_THOUGHT_PATTERN",
          [2000, 4000], 3)) := by
  refine ⟨fun oracle => goDeepThought_calls_le oracle _ 0,
    fun oracle => ?_, fun oracle h => ?_⟩
  · simpa using goDeepThought_sleeps oracle MAX_RETRY_ATTEMPTS 0
  · have h0 := h 0 (by norm_num [MAX_RETRY_ATTEMPTS])
    have h1 := h 1 (by norm_num [MAX_RETRY_ATTEMPTS])
    have h2 := h 2 (by norm_num [MAX_RETRY_ATTEMPTS])
    simp [executeDeepThought, MAX_RETRY_ATTEMPTS, goDeepThought, h0, h1, h2]

/-- Witness for C4 at the always-failing oracle. -/
theorem c4_deep_thought_retries_witness :
    (∀ i, i < MAX_RETRY_ATTEMPTS → (fun _ => AttemptResult.fail) i = .fail) ∧
    executeDeepThought (fun _ => AttemptResult.fail) =
      ("CIRCUIT_BREAKER_ACTIVATED: UNABLE_TO_PROCESS_THOUGHT_PATTERN",
        [2000, 4000], 3) :=
  ⟨fun _ _ => rfl,
    c4_deep_thought_retries.2.2 (fun _ => AttemptResult.fail) fun _ _ => rfl⟩

/-- `find?` returns the first element of a split whose prefix all fails
the predicate and whose head satisfies it. -/
theorem find?_of_split {β : Type} (p : β → Bool) :
    ∀ (pre : List β) (r : β) (post : List β),
      (∀ x ∈ pre, p x = false) → p r = true →
      (pre ++ r :: post).find? p = some r := by
  intro pre
  induction pre with
  | nil => intro r post _ hr; simpa using List.find?_cons_of_pos _ hr
  | cons a pre ih =>
    intro r post hpre hr
    rw [List.cons_append, List.find?_cons_of_neg _ (by simp [hpre a (by simp)])]
    exact ih r post (fun x hx => hpre x (by simp [hx])) hr

/-- An unknown id is exactly a registry with no matching scenario. -/
theorem getScenarioById_eq_none_iff (registry : List SimulationScenarioMatrix)
    (id : String) :
    getScenarioById registry id = none ↔ ∀ sc ∈ registry, sc.id ≠ id := by
  unfold getScenarioById
  rw [List.find?_eq_none]
  simp

/-- A string with the simulation marker prefix is never the corruption
sentinel. -/
theorem marker_ne_corruption (rest : String) :
    "[SIMULATION_MODE]: " ++ rest ≠ "ERROR: SCENARIO_DATA_CORRUPTION" := by
  intro h
  have h2 := congrArg (fun s => s.data.head?) h
  simp only [String.data_append] at h2
  have h3 : ("[SIMULATION_MODE]: ".data ++ rest.data).head? = some '[' := rfl
  have h4 : ("ERROR: SCENARIO_DATA_CORRUPTION").data.head? = some 'E' := rfl
  rw [h3, h4] at h2
  exact absurd h2 (by decide)

/-- Reduction of `processOfflineSimulation` for a registered scenario. -/
theorem processOfflineSimulation_known (test : String → String → Bool)
    (registry : List SimulationScenarioMatrix)
    (scenarioId userPayload : String) (sc : SimulationScenarioMatrix)
    (hsc : getScenarioById registry scenarioId = some sc) :
    processOfflineSimulation test registry scenarioId userPayload =
      match sc.probabilityManifolds.find?
          (fun m => test m.triggerCondition (jsToLower userPayload)) with
      | some m => "[SIMULATION_MODE]: " ++ m.syntheticResponse
      | none => "[SIMULATION_MODE]: I am not compelled by that argument. Please restructure your leverage." := by
  unfold processOfflineSimulation
  rw [hsc]

/-- Reduction of `processOfflineSimulation` for an unknown scenario id. -/
theorem processOfflineSimulation_unknown (test : String → String → Bool)
    (registry : List SimulationScenarioMatrix)
    (scenarioId userPayload : String)
    (hsc : getScenarioById registry scenarioId = none) :
    processOfflineSimulation test registry scenarioId userPayload =
      "ERROR: SCENARIO_DATA_CORRUPTION" := by
  unfold processOfflineSimulation
  rw [hsc]

/-- C3: for a registered scenario, `processOfflineSimulation` returns the
marker-prefixed response of the first rule (in definition order) whose
trigger tests true against the lower-cased utterance, and the fixed
marker-prefixed default when no rule matches; in particular the §8
example scenario (rules `reject`, `agree`) behaves as claimed. -/
theorem c3_first_match_wins :
    (∀ (test : String → String → Bool)
        (registry : List SimulationScenarioMatrix)
        (scenarioId userPayload : String) (sc : SimulationScenarioMatrix),
      getScenarioById registry scenarioId = some sc →
      (∀ pre r post, sc.probabilityManifolds = pre ++ r :: post →
        (∀ r' ∈ pre, test r'.triggerCondition (jsToLower userPayload) = false) →
        test r.triggerCondition (jsToLower userPayload) = true →
        processOfflineSimulation test registry scenarioId userPayload =
          "[SIMULATION_MODE]: " ++ r.syntheticResponse) ∧
      ((∀ r ∈ sc.probabilityManifolds,
          test r.triggerCondition (jsToLower userPayload) = false) →
        processOfflineSimulation test registry scenarioId userPayload =
          "[SIMULATION_MODE]: I am not compelled by that argument. Please restructure your leverage.")) ∧
    processOfflineSimulation substrTest demoRegistry "demo" "I reject and agree" =
      "[SIMULATION_MODE]: RESPONSE_A" ∧
    processOfflineSimulation substrTest demoRegistry "demo" "no match here" =
      "[SIMULATION_MODE]: I am not compelled by that argument. Please restructure your leverage." := by
  refine ⟨fun test registry scenarioId userPayload sc hsc =>
    ⟨fun pre r post hsplit hpre hr => ?_, fun hall => ?_⟩, by decide, by decide⟩
  · rw [processOfflineSimulation_known test registry scenarioId userPayload sc hsc,
      hsplit, find?_of_split _ pre r post hpre hr]
  · have hnone : sc.probabilityManifolds.find?
        (fun m => test m.triggerCondition (jsToLower userPayload)) = none :=
      List.find?_eq_none.mpr (fun x hx => by simp [hall x hx])
    rw [processOfflineSimulation_known test registry scenarioId userPayload sc hsc,
      hnone]

/-- Witness for C3: the general first-match clause applied to the §8
example (rule `reject` matches, the empty prefix of rules trivially all
fail). -/
theorem c3_first_match_wins_witness :
    processOfflineSimulation substrTest demoRegistry "demo" "they reject it" =
      "[SIMULATION_MODE]: RESPONSE_A" :=
  ((c3_first_match_wins.1 substrTest demoRegistry "demo" "they reject it"
      demoScenario (by decide)).1 []
    ⟨"reject", "RESPONSE_A", 10⟩ [⟨"agree", "RESPONSE_B", 20⟩] rfl
    (by simp) (by decide))

/-- C10: `processOfflineSimulation` yields the bare corruption sentinel
exactly for ids absent from the registry, every answer for a registered
scenario carries the simulation-mode marker, and the sentinel never
carries the marker, so callers can tell the two apart. -/
theorem c10_corruption_sentinel :
    (∀ (test : String → String → Bool)
        (registry : List SimulationScenarioMatrix)
        (scenarioId userPayload : String),
      (processOfflineSimulation test registry scenarioId userPayload =
          "ERROR: SCENARIO_DATA_CORRUPTION" ↔
        ∀ sc ∈ registry, sc.id ≠ scenarioId) ∧
      ((∃ sc ∈ registry, sc.id = scenarioId) →
        ∃ rest, processOfflineSimulation test registry scenarioId userPayload =
          "[SIMULATION_MODE]: " ++ rest)) ∧
    (∀ rest : String,
      "[SIMULATION_MODE]: " ++ rest ≠ "ERROR: SCENARIO_DATA_CORRUPTION") := by
  refine ⟨fun test registry scenarioId userPayload => ?_, marker_ne_corruption⟩
  have hmarker : ∀ sc, getScenarioById registry scenarioId = some sc →
      ∃ rest, processOfflineSimulation test registry scenarioId userPayload =
        "[SIMULATION_MODE]: " ++ rest := by
    intro sc hsc
    rw [processOfflineSimulation_known test registry scenarioId userPayload sc hsc]
    cases hfind : sc.probabilityManifolds.find?
        (fun m => test m.triggerCondition (jsToLower userPayload)) with
    | none =>
      exact ⟨"I am not compelled by that argument. Please restructure your leverage.",
        by decide⟩
    | some m => exact ⟨m.syntheticResponse, rfl⟩
  constructor
  · constructor
    · intro h
      cases hsc : getScenarioById registry scenarioId with
      | none => exact (getScenarioById_eq_none_iff registry scenarioId).mp hsc
      | some sc =>
        obtain ⟨rest, hrest⟩ := hmarker sc hsc
        exact absurd (hrest ▸ h) (marker_ne_corruption rest)
    · intro h
      exact processOfflineSimulation_unknown test registry scenarioId userPayload
        ((getScenarioById_eq_none_iff registry scenarioId).mpr h)
  · intro h
    obtain ⟨sc, hmem, hid⟩ := h
    cases hsc : getScenarioById registry scenarioId with
    | none =>
      exact absurd hid ((getScenarioById_eq_none_iff registry scenarioId).mp hsc sc hmem)
    | some sc' => exact hmarker sc' hsc

/-- Witness for C10: the marker clause applied to the demonstration
registry. -/
theorem c10_corruption_sentinel_witness :
    ∃ rest, processOfflineSimulation substrTest demoRegistry "demo" "hello" =
      "[SIMULATION_MODE]: " ++ rest :=
  (c10_corruption_sentinel.1 substrTest demoRegistry "demo" "hello").2
    ⟨demoScenario, by decide, rfl⟩

/-- The head delivered by `dropWhile` fails the predicate. -/
theorem dropWhile_head_not {p : Char → Bool} :
    ∀ (l : List Char) (a : Char) (rest : List Char),
      l.dropWhile p = a :: rest → p a = false := by
  intro l
  induction l with
  | nil => intro a rest h; simp [List.dropWhile] at h
  | cons c cs ih =>
    intro a rest h
    rw [List.dropWhile_cons] at h
    by_cases hc : p c
    · exact ih a rest (by simpa [hc] using h)
    · rw [if_neg hc] at h
      cases h
      simpa using hc

/-- Leading whitespace does not change the non-whitespace runs. -/
theorem nonWsRuns_dropWhile (l : List Char) :
    nonWsRuns (l.dropWhile wsChar) = nonWsRuns l := by
  induction l with
  | nil => rfl
  | cons c cs ih =>
    rw [List.dropWhile_cons]
    by_cases hc : wsChar c
    · rw [if_pos hc, ih]
      simp [nonWsRuns, hc]
    · rw [if_neg hc]

/-- One trailing whitespace character does not change the runs. -/
theorem nonWsRuns_append_ws (c : Char) (hc : wsChar c = true) :
    ∀ l : List Char, nonWsRuns (l ++ [c]) = nonWsRuns l := by
  intro l
  induction l with
  | nil => simp [nonWsRuns, hc]
  | cons a l ih =>
    cases l with
    | nil => by_cases ha : wsChar a <;> simp [nonWsRuns, hc, ha]
    | cons b l' =>
      by_cases ha : wsChar a <;> by_cases hb : wsChar b <;>
        simp_all [nonWsRuns, hc, ha, hb]

/-- Trailing whitespace does not change the non-whitespace runs. -/
theorem nonWsRuns_append_ws_all :
    ∀ (w : List Char), (∀ c ∈ w, wsChar c = true) →
      ∀ l : List Char, nonWsRuns (l ++ w) = nonWsRuns l := by
  intro w
  induction w with
  | nil => intro _ l; simp
  | cons c w' ih =>
    intro hw l
    have : l ++ c :: w' = (l ++ [c]) ++ w' := by simp
    rw [this, ih (fun d hd => hw d (by simp [hd])) (l ++ [c]),
      nonWsRuns_append_ws c (hw c (by simp)) l]

/-- Runs of a list beginning with a non-whitespace character are
nonempty. -/
theorem nonWsRuns_ne_nil (a : Char) (t : List Char) (ha : wsChar a = false) :
    nonWsRuns (a :: t) ≠ [] := by
  cases t with
  | nil => simp [nonWsRuns, ha]
  | cons b t' => by_cases hb : wsChar b <;> simp [nonWsRuns, ha, hb]

/-- `trim` splits the left-trimmed list into the trimmed list and a
whitespace tail. -/
theorem trimWs_decomp (l : List Char) :
    ∃ w : List Char, (∀ c ∈ w, wsChar c = true) ∧
      l.dropWhile wsChar = trimWs l ++ w := by
  refine ⟨(((l.dropWhile wsChar).reverse).takeWhile wsChar).reverse,
    fun c hc => List.mem_takeWhile_imp (List.mem_reverse.mp hc), ?_⟩
  unfold trimWs
  calc l.dropWhile wsChar = ((l.dropWhile wsChar).reverse).reverse :=
        (List.reverse_reverse _).symm
    _ = (((l.dropWhile wsChar).reverse.takeWhile wsChar) ++
          ((l.dropWhile wsChar).reverse.dropWhile wsChar)).reverse := by
        rw [List.takeWhile_append_dropWhile]
    _ = ((l.dropWhile wsChar).reverse.dropWhile wsChar).reverse ++
          ((l.dropWhile wsChar).reverse.takeWhile wsChar).reverse := by
        rw [List.reverse_append]

/-- Trimming does not change the non-whitespace runs. -/
theorem nonWsRuns_trimWs (l : List Char) :
    nonWsRuns (trimWs l) = nonWsRuns l := by
  obtain ⟨w, hw, hdecomp⟩ := trimWs_decomp l
  rw [← nonWsRuns_dropWhile l, hdecomp, nonWsRuns_append_ws_all w hw _]

/-- A nonempty trimmed list neither starts nor ends with whitespace. -/
theorem trimWs_head_last (l : List Char) (h : trimWs l ≠ []) :
    wsChar ((trimWs l).head?.getD (Char.ofNat 32)) = false ∧
    wsChar ((trimWs l).getLast?.getD (Char.ofNat 32)) = false := by
  constructor
  · obtain ⟨w, _, hdecomp⟩ := trimWs_decomp l
    cases ht : trimWs l with
    | nil => exact absurd ht h
    | cons a t' =>
      rw [ht] at hdecomp
      have ha := dropWhile_head_not l a (t' ++ w) (by simpa using hdecomp)
      simpa using ha
  · have hv : ((l.dropWhile wsChar).reverse.dropWhile wsChar) ≠ [] := by
      intro hnil
      exact h (by unfold trimWs; rw [hnil]; rfl)
    cases hvc : (l.dropWhile wsChar).reverse.dropWhile wsChar with
    | nil => exact absurd hvc hv
    | cons b v' =>
      have hb := dropWhile_head_not _ b v' hvc
      have hg : (trimWs l).getLast? = some b := by
        unfold trimWs
        rw [hvc, List.getLast?_reverse]
        rfl
      rw [hg]
      simpa using hb

/-- The token count of `trim` + `split(/\s+/)`: one for an all-whitespace
transcript, the word count otherwise. -/
theorem jsSplitWs_trimWs_length (l : List Char) :
    (jsSplitWs (trimWs l)).length = max 1 (nonWsRuns l).length := by
  by_cases h : trimWs l = []
  · have h0 : nonWsRuns l = [] := by rw [← nonWsRuns_trimWs l, h]; rfl
    rw [h, h0]
    rfl
  · obtain ⟨hhead, hlast⟩ := trimWs_head_last l h
    have hsplit : jsSplitWs (trimWs l) = nonWsRuns (trimWs l) := by
      simp [jsSplitWs, h, hhead, hlast]
    have hne : nonWsRuns (trimWs l) ≠ [] := by
      cases ht : trimWs l with
      | nil => exact absurd ht h
      | cons a t' =>
        rw [ht] at hhead
        simp only [List.head?_cons, Option.getD_some] at hhead
        exact nonWsRuns_ne_nil a t' hhead
    have h1 : 1 ≤ (nonWsRuns l).length := by
      rw [← nonWsRuns_trimWs l]
      exact Nat.one_le_iff_ne_zero.mpr
        (by simpa [List.length_eq_zero] using hne)
    rw [hsplit, nonWsRuns_trimWs]
    exact (Nat.max_eq_right h1).symm

/-- C9 (counterexample): on the empty transcript with a positive duration
the code returns velocity `1`, not the `0` that the claimed formula
(whitespace-delimited word count over duration, times 60) yields, because
`"".trim().split(/\s+/)` is `[""]`, of length one. -/
theorem c9_verbal_velocity_counterexample :
    (calculateVerbalVelocityScore "" 60).1 = 1 ∧ specWordCount "" = 0 ∧
    (calculateVerbalVelocityScore "" 60).1 ≠
      ((specWordCount "" : ℚ) / 60) * 60 := by
  have h : (calculateVerbalVelocityScore "" 60).1 = 1 := by
    norm_num [calculateVerbalVelocityScore, jsSplitWs, trimWs]
  have h0 : specWordCount "" = 0 := by decide
  exact ⟨h, h0, by rw [h, h0]; norm_num⟩

/-- C9 (amended): for a positive duration the velocity is
`max(1, word count) / duration × 60` — the word count, except that an
empty or all-whitespace transcript counts as one (empty) token — and the
velocity is `0` for a non-positive duration. -/
theorem c9_verbal_velocity_amended (transcript : String)
    (durationSeconds : ℚ) :
    (0 < durationSeconds →
      (calculateVerbalVelocityScore transcript durationSeconds).1 =
        ((max 1 (specWordCount transcript) : ℕ) : ℚ) / durationSeconds * 60) ∧
    (durationSeconds ≤ 0 →
      (calculateVerbalVelocityScore transcript durationSeconds).1 = 0) := by
  constructor
  · intro hd
    unfold calculateVerbalVelocityScore
    rw [if_neg (by simpa using hd)]
    show ((jsSplitWs (trimWs transcript.data)).length : ℚ) / _ * 60 = _
    rw [jsSplitWs_trimWs_length]
    rfl
  · intro hd
    unfold calculateVerbalVelocityScore
    rw [if_pos hd]

/-- Witness for C9 on a two-word transcript and a positive duration. -/
theorem c9_verbal_velocity_amended_witness :
    (0 : ℚ) < 60 ∧
    (calculateVerbalVelocityScore "a b" 60).1 =
      ((max 1 (specWordCount "a b") : ℕ) : ℚ) / 60 * 60 :=
  ⟨by norm_num, (c9_verbal_velocity_amended "a b" 60).1 (by norm_num)⟩

/-- A lookup with a default of `0` in a table of non-negative weights is
non-negative. -/
theorem lookup_getD_nonneg :
    ∀ (L : List (List Char × ℚ)), (∀ p ∈ L, 0 ≤ p.2) →
      ∀ w : List Char, 0 ≤ (L.lookup w).getD 0 := by
  intro L
  induction L with
  | nil => intro _ w; simp [List.lookup]
  | cons p L ih =>
    intro hL w
    rw [show (p :: L).lookup w = if w == p.1 then some p.2 else L.lookup w
      from by rw [List.lookup]; cases h : w == p.1 <;> simp]
    split
    · simpa using hL p (by simp)
    · exact ih (fun q hq => hL q (by simp [hq])) w

/-- Aggression weights are non-negative. -/
theorem aggWeight_nonneg (w : List Char) : 0 ≤ aggWeight w := by
  refine lookup_getD_nonneg AGGRESSION_LEXICON ?_ w
  intro p hp
  fin_cases hp <;> norm_num

/-- C6: on any text, any hesitation count and any acoustic intensity in
`[0,1]`, the outputs of `analyze` are within their documented ranges:
confidence in `[0,1]`, emotional resonance in `[-1,1]`, aggression,
logic density and clarity in `[0,100]`. -/
theorem c6_analyze_ranges (text : String) (spectralIntensity : ℚ)
    (hesitationCount : Nat) (_h0 : 0 ≤ spectralIntensity)
    (_h1 : spectralIntensity ≤ 1) :
    (0 ≤ (analyze text spectralIntensity hesitationCount).confidenceScore ∧
      (analyze text spectralIntensity hesitationCount).confidenceScore ≤ 1) ∧
    (-1 ≤ (analyze text spectralIntensity hesitationCount).emotionalResonanceIndex ∧
      (analyze text spectralIntensity hesitationCount).emotionalResonanceIndex ≤ 1) ∧
    (0 ≤ (analyze text spectralIntensity hesitationCount).aggressionIndex ∧
      (analyze text spectralIntensity hesitationCount).aggressionIndex ≤ 100) ∧
    (0 ≤ (analyze text spectralIntensity hesitationCount).logicDensity ∧
      (analyze text spectralIntensity hesitationCount).logicDensity ≤ 100) ∧
    (0 ≤ (analyze text spectralIntensity hesitationCount).clarityScore ∧
      (analyze text spectralIntensity hesitationCount).clarityScore ≤ 100) := by
  unfold analyze
  dsimp only
  refine ⟨⟨le_max_left _ _, max_le (by norm_num) (min_le_left _ _)⟩,
    ⟨le_max_left _ _, max_le (by norm_num) (min_le_left _ _)⟩,
    ⟨le_min (by norm_num) ?_, min_le_left _ _⟩,
    ⟨le_min (by norm_num) ?_, min_le_left _ _⟩,
    ⟨le_min (by norm_num) (le_max_left _ _), min_le_left _ _⟩⟩
  · refine List.sum_nonneg ?_
    intro x hx
    simp only [List.mem_map] at hx
    obtain ⟨w, _, rfl⟩ := hx
    exact mul_nonneg (aggWeight_nonneg w) (by norm_num)
  · refine List.sum_nonneg ?_
    intro x hx
    simp only [List.mem_map] at hx
    obtain ⟨w, _, rfl⟩ := hx
    split <;> norm_num

/-- Witness for C6 at a concrete utterance and intensity. -/
theorem c6_analyze_ranges_witness :
    (0 : ℚ) ≤ 1 / 2 ∧ (1 : ℚ) / 2 ≤ 1 ∧
    (0 ≤ (analyze "I demand results now" (1 / 2) 1).confidenceScore ∧
      (analyze "I demand results now" (1 / 2) 1).confidenceScore ≤ 1) ∧
    (-1 ≤ (analyze "I demand results now" (1 / 2) 1).emotionalResonanceIndex ∧
      (analyze "I demand results now" (1 / 2) 1).emotionalResonanceIndex ≤ 1) ∧
    (0 ≤ (analyze "I demand results now" (1 / 2) 1).aggressionIndex ∧
      (analyze "I demand results now" (1 / 2) 1).aggressionIndex ≤ 100) ∧
    (0 ≤ (analyze "I demand results now" (1 / 2) 1).logicDensity ∧
      (analyze "I demand results now" (1 / 2) 1).logicDensity ≤ 100) ∧
    (0 ≤ (analyze "I demand results now" (1 / 2) 1).clarityScore ∧
      (analyze "I demand results now" (1 / 2) 1).clarityScore ≤ 100) := by
  have hr := c6_analyze_ranges "I demand results now" (1 / 2) 1
    (by norm_num) (by norm_num)
  exact ⟨by norm_num, by norm_num, hr.1, hr.2.1, hr.2.2.1, hr.2.2.2.1, hr.2.2.2.2⟩

/-- `lev` on an empty source is the target length. -/
theorem lev_nil_left (t : List α) : lev [] t = t.length := by
  simp [lev]

/-- `lev` on an empty target is the source length. -/
theorem lev_nil_right (s : List α) : lev s [] = s.length := by
  cases s <;> simp [lev]

/-- The defining recurrence of `lev` on two nonempty lists. -/
theorem lev_cons_cons (x y : α) (xs ys : List α) :
    lev (x :: xs) (y :: ys) =
      min (lev xs (y :: ys) + 1)
        (min (lev (x :: xs) ys + 1)
          (lev xs ys + (if x = y then 0 else 1))) := by
  simp [lev]

/-- Deleting the head costs at most one. -/
theorem lev_le_del (x : α) (s t : List α) : lev (x :: s) t ≤ lev s t + 1 := by
  cases t with
  | nil => simp [lev_nil_right]
  | cons y ys => rw [lev_cons_cons]; exact min_le_left _ _

/-- Inserting a head costs at most one. -/
theorem lev_le_ins (y : α) (s t : List α) : lev s (y :: t) ≤ lev s t + 1 := by
  cases s with
  | nil => simp [lev_nil_left]
  | cons x xs =>
    rw [lev_cons_cons]
    exact le_trans (min_le_right _ _) (min_le_left _ _)

/-- Substituting the heads costs at most the substitution cost. -/
theorem lev_le_sub (x y : α) (s t : List α) :
    lev (x :: s) (y :: t) ≤ lev s t + (if x = y then 0 else 1) := by
  rw [lev_cons_cons]
  exact le_trans (min_le_right _ _) (min_le_right _ _)

/-- The distance from a list to itself is zero. -/
theorem lev_self (s : List α) : lev s s = 0 := by
  induction s with
  | nil => simp [lev_nil_left]
  | cons x xs ih => rw [lev_cons_cons]; simp [ih]

/-- The three-way case split of the recurrence: the distance equals one
of its three branches. -/
theorem lev_cons_cons_cases (x y : α) (s t : List α) :
    lev (x :: s) (y :: t) = lev s (y :: t) + 1 ∨
    lev (x :: s) (y :: t) = lev (x :: s) t + 1 ∨
    lev (x :: s) (y :: t) = lev s t + (if x = y then 0 else 1) := by
  rw [lev_cons_cons]
  rcases min_choice (lev s (y :: t) + 1)
      (min (lev (x :: s) t + 1) (lev s t + (if x = y then 0 else 1))) with h | h
  · exact Or.inl h
  · rcases min_choice (lev (x :: s) t + 1)
        (lev s t + (if x = y then 0 else 1)) with h2 | h2
    · exact Or.inr (Or.inl (h.trans h2))
    · exact Or.inr (Or.inr (h.trans h2))

/-- The distance is at least the length difference, in both directions. -/
theorem lev_length_bounds (n : Nat) : ∀ s t : List α,
    s.length + t.length ≤ n →
    s.length ≤ t.length + lev s t ∧ t.length ≤ s.length + lev s t := by
  induction n with
  | zero =>
    intro s t h
    cases s with
    | nil => constructor <;> simp [lev_nil_left]
    | cons x xs => simp at h
  | succ n ih =>
    intro s t hlen
    cases s with
    | nil => constructor <;> simp [lev_nil_left]
    | cons x xs =>
      cases t with
      | nil => constructor <;> simp [lev_nil_right]
      | cons y ys =>
        rcases lev_cons_cons_cases x y xs ys with h | h | h
        · have := ih xs (y :: ys) (by simp only [List.length_cons] at hlen ⊢; omega)
          simp only [List.length_cons] at *
          omega
        · have := ih (x :: xs) ys (by simp only [List.length_cons] at hlen ⊢; omega)
          simp only [List.length_cons] at *
          omega
        · have := ih xs ys (by simp only [List.length_cons] at hlen ⊢; omega)
          simp only [List.length_cons] at *
          omega

/-- The distance is at most the sum of the lengths. -/
theorem lev_le_lengths (s t : List α) : lev s t ≤ s.length + t.length := by
  induction s with
  | nil => simp [lev_nil_left]
  | cons x xs ih =>
    have := lev_le_del x xs t
    simp only [List.length_cons]
    omega

/-- The unit substitution cost obeys the triangle inequality. -/
theorem levCost_triangle (x y z : α) :
    (if x = z then (0 : Nat) else 1) ≤
      (if x = y then 0 else 1) + (if y = z then 0 else 1) := by
  by_cases hxy : x = y
  · by_cases hyz : y = z
    · simp [hxy.trans hyz, hxy, hyz]
    · simp only [if_pos hxy, if_neg hyz]
      split <;> omega
  · simp only [if_neg hxy]
    split <;> split <;> omega

/-- Triangle inequality for `lev`, by strong induction on total length. -/
theorem lev_triangle_aux (n : Nat) : ∀ s t u : List α,
    s.length + t.length + u.length ≤ n →
    lev s u ≤ lev s t + lev t u := by
  induction n with
  | zero =>
    intro s t u h
    cases t with
    | nil => rw [lev_nil_right, lev_nil_left]; exact lev_le_lengths s u
    | cons y ts => simp at h
  | succ n ih =>
    intro s t u hlen
    cases t with
    | nil => rw [lev_nil_right, lev_nil_left]; exact lev_le_lengths s u
    | cons y ts =>
      cases s with
      | nil =>
        rw [lev_nil_left, lev_nil_left]
        have := (lev_length_bounds ((y :: ts).length + u.length) (y :: ts) u
          le_rfl).2
        omega
      | cons x ss =>
        cases u with
        | nil =>
          rw [lev_nil_right, lev_nil_right]
          have := (lev_length_bounds ((x :: ss).length + (y :: ts).length)
            (x :: ss) (y :: ts) le_rfl).1
          omega
        | cons z us =>
          have hlen' : ss.length + ts.length + us.length + 3 ≤ n + 1 := by
            simp only [List.length_cons] at hlen
            omega
          rcases lev_cons_cons_cases x y ss ts with hA | hA | hA
          · have h1 := lev_le_del x ss (z :: us)
            have h2 := ih ss (y :: ts) (z :: us)
              (by simp only [List.length_cons]; omega)
            omega
          · rcases lev_cons_cons_cases y z ts us with hB | hB | hB
            · have h2 := ih (x :: ss) ts (z :: us)
                (by simp only [List.length_cons]; omega)
              omega
            · have h1 := lev_le_ins z (x :: ss) us
              have h2 := ih (x :: ss) (y :: ts) us
                (by simp only [List.length_cons]; omega)
              omega
            · have h1 := lev_le_ins z (x :: ss) us
              have h2 := ih (x :: ss) ts us
                (by simp only [List.length_cons]; omega)
              omega
          · rcases lev_cons_cons_cases y z ts us with hB | hB | hB
            · have h1 := lev_le_del x ss (z :: us)
              have h2 := ih ss ts (z :: us)
                (by simp only [List.length_cons]; omega)
              omega
            · have h1 := lev_le_ins z (x :: ss) us
              have h2 := ih (x :: ss) (y :: ts) us
                (by simp only [List.length_cons]; omega)
              omega
            · have h1 := lev_le_sub x z ss us
              have h2 := ih ss ts us (by omega)
              have hc := levCost_triangle x y z
              omega

/-- Triangle inequality for `lev`. -/
theorem lev_triangle (s t u : List α) : lev s u ≤ lev s t + lev t u :=
  lev_triangle_aux (s.length + t.length + u.length) s t u le_rfl

/-- Inserting everything aligns the empty list with any list. -/
theorem aligned_nil_left : ∀ t : List α, Aligned ([] : List α) t t.length := by
  intro t
  induction t with
  | nil => exact .nil
  | cons y ys ih => exact .ins y ih

/-- Deleting everything aligns any list with the empty list. -/
theorem aligned_nil_right : ∀ s : List α, Aligned s ([] : List α) s.length := by
  intro s
  induction s with
  | nil => exact .nil
  | cons x xs ih => exact .del x ih

/-- Completeness: some alignment realises the distance. -/
theorem lev_aligned (n : Nat) : ∀ s t : List α, s.length + t.length ≤ n →
    Aligned s t (lev s t) := by
  induction n with
  | zero =>
    intro s t h
    have hs : s = [] := by cases s <;> simp_all
    have ht : t = [] := by cases t <;> simp_all
    subst hs; subst ht
    rw [lev_nil_left]
    exact .nil
  | succ n ih =>
    intro s t hlen
    cases s with
    | nil => rw [lev_nil_left]; exact aligned_nil_left t
    | cons x xs =>
      cases t with
      | nil => rw [lev_nil_right]; exact aligned_nil_right (x :: xs)
      | cons y ys =>
        rcases lev_cons_cons_cases x y xs ys with h | h | h <;> rw [h]
        · exact .del x (ih xs (y :: ys)
            (by simp only [List.length_cons] at hlen ⊢; omega))
        · exact .ins y (ih (x :: xs) ys
            (by simp only [List.length_cons] at hlen ⊢; omega))
        · exact .sub x y (ih xs ys
            (by simp only [List.length_cons] at hlen ⊢; omega))

/-- Soundness: the distance is at most the cost of any alignment. -/
theorem aligned_le {s t : List α} {n : Nat} (h : Aligned s t n) :
    lev s t ≤ n := by
  induction h with
  | nil => simp [lev_nil_left]
  | del x _ ih => exact le_trans (lev_le_del x _ _) (by omega)
  | ins y _ ih => exact le_trans (lev_le_ins y _ _) (by omega)
  | sub x y _ ih =>
    refine le_trans (lev_le_sub x y _ _) ?_
    have : (if x = y then (0 : Nat) else 1) ≤ 1 := by split <;> omega
    omega

/-- Alignments absorb a trailing deletion. -/
theorem aligned_snoc_del (x : α) {s t : List α} {n : Nat}
    (h : Aligned s t n) : Aligned (s ++ [x]) t (n + 1) := by
  induction h with
  | nil => exact .del x .nil
  | del b _ ih => exact .del b ih
  | ins c _ ih => exact .ins c ih
  | sub a b _ ih =>
    have h2 := Aligned.sub a b ih
    convert h2 using 1
    omega

/-- Alignments absorb a trailing insertion. -/
theorem aligned_snoc_ins (y : α) {s t : List α} {n : Nat}
    (h : Aligned s t n) : Aligned s (t ++ [y]) (n + 1) := by
  induction h with
  | nil => exact .ins y .nil
  | del b _ ih => exact .del b ih
  | ins c _ ih => exact .ins c ih
  | sub a b _ ih =>
    have h2 := Aligned.sub a b ih
    convert h2 using 1
    omega

/-- Alignments absorb a trailing substitution. -/
theorem aligned_snoc_sub (x y : α) {s t : List α} {n : Nat}
    (h : Aligned s t n) :
    Aligned (s ++ [x]) (t ++ [y]) (n + (if x = y then 0 else 1)) := by
  induction h with
  | nil =>
    have h2 := Aligned.sub x y (.nil : Aligned ([] : List α) [] 0)
    convert h2 using 1
  | del b _ ih =>
    have h2 := Aligned.del b ih
    convert h2 using 1
    omega
  | ins c _ ih =>
    have h2 := Aligned.ins c ih
    convert h2 using 1
    omega
  | sub a b _ ih =>
    have h2 := Aligned.sub a b ih
    convert h2 using 1
    omega

/-- Alignments are invariant under reversal. -/
theorem aligned_reverse {s t : List α} {n : Nat} (h : Aligned s t n) :
    Aligned s.reverse t.reverse n := by
  induction h with
  | nil => exact .nil
  | del x _ ih => rw [List.reverse_cons]; exact aligned_snoc_del x ih
  | ins y _ ih => rw [List.reverse_cons]; exact aligned_snoc_ins y ih
  | sub x y _ ih =>
    rw [List.reverse_cons, List.reverse_cons]
    exact aligned_snoc_sub x y ih

/-- The distance is invariant under reversing both lists. -/
theorem lev_reverse (s t : List α) : lev s.reverse t.reverse = lev s t := by
  apply le_antisymm
  · exact aligned_le (aligned_reverse
      (lev_aligned (s.length + t.length) s t le_rfl))
  · have h := aligned_le (aligned_reverse
      (lev_aligned (s.reverse.length + t.reverse.length) s.reverse t.reverse
        le_rfl))
    simpa using h

/-- The DP matrix entry `(i, j)` is the distance between the reversed
`i`- and `j`-prefixes (the last-character recurrence of the matrix is the
head recurrence of `lev` on the reversed prefixes). -/
theorem levMatrixEntry_eq (s t : List α) (n : Nat) : ∀ i j : Nat,
    i + j ≤ n → i ≤ s.length → j ≤ t.length →
    levMatrixEntry s t i j = lev ((s.take i).reverse) ((t.take j).reverse) := by
  induction n with
  | zero =>
    intro i j hij _ _
    have hi0 : i = 0 := by omega
    have hj0 : j = 0 := by omega
    subst hi0; subst hj0
    simp [levMatrixEntry, lev_nil_left]
  | succ n ih =>
    intro i j hij hi hj
    cases i with
    | zero =>
      simp only [levMatrixEntry, List.take_zero, List.reverse_nil,
        lev_nil_left, List.length_reverse, List.length_take]
      omega
    | succ i =>
      cases j with
      | zero =>
        simp only [levMatrixEntry, List.take_zero, List.reverse_nil,
          lev_nil_right, List.length_reverse, List.length_take]
        omega
      | succ j =>
        have hi' : i < s.length := by omega
        have hj' : j < t.length := by omega
        have hts : s.take (i + 1) = s.take i ++ [s[i]] := by
          rw [List.take_succ, List.getElem?_eq_getElem hi']
          rfl
        have htt : t.take (j + 1) = t.take j ++ [t[j]] := by
          rw [List.take_succ, List.getElem?_eq_getElem hj']
          rfl
        rw [show levMatrixEntry s t (i + 1) (j + 1) =
            min (levMatrixEntry s t i (j + 1) + 1)
              (min (levMatrixEntry s t (i + 1) j + 1)
                (levMatrixEntry s t i j + (if s[i]? = t[j]? then 0 else 1)))
          from by rw [levMatrixEntry]]
        rw [ih i (j + 1) (by omega) (by omega) hj,
          ih (i + 1) j (by omega) hi (by omega),
          ih i j (by omega) (by omega) (by omega),
          hts, htt, List.reverse_append, List.reverse_append]
        simp only [List.reverse_singleton, List.singleton_append]
        rw [lev_cons_cons, List.getElem?_eq_getElem hi',
          List.getElem?_eq_getElem hj']
        simp only [Option.some.injEq]

/-- `computeLevenshteinDeviation` agrees with the recursive distance. -/
theorem computeLev_eq_lev (s t : String) :
    computeLevenshteinDeviation s t = lev s.data t.data := by
  unfold computeLevenshteinDeviation
  dsimp only
  by_cases hs : s.length = 0
  · rw [if_pos hs]
    have hd : s.data = [] := List.length_eq_zero.mp hs
    rw [hd, lev_nil_left]
    rfl
  · rw [if_neg hs]
    by_cases ht : t.length = 0
    · rw [if_pos ht]
      have hd : t.data = [] := List.length_eq_zero.mp ht
      rw [hd, lev_nil_right]
      rfl
    · rw [if_neg ht]
      have hls : s.length = s.data.length := rfl
      have hlt : t.length = t.data.length := rfl
      rw [levMatrixEntry_eq s.data t.data (s.length + t.length) s.length
        t.length le_rfl (by rw [hls]) (by rw [hlt]),
        hls, hlt, List.take_length, List.take_length, lev_reverse]

/-- Mathlib's `levenshtein` with unit costs on an empty source. -/
theorem mathlib_lev_nil_left (t : List α) :
    levenshtein Levenshtein.defaultCost ([] : List α) t = t.length := by
  induction t with
  | nil => simp [levenshtein_nil_nil]
  | cons y ys ih => simp [levenshtein_nil_cons, ih]; omega

/-- Mathlib's `levenshtein` with unit costs on an empty target. -/
theorem mathlib_lev_nil_right (s : List α) :
    levenshtein Levenshtein.defaultCost s ([] : List α) = s.length := by
  induction s with
  | nil => simp [levenshtein_nil_nil]
  | cons x xs ih => simp [levenshtein_cons_nil, ih]; omega

/-- `lev` coincides with Mathlib's `levenshtein` at the default unit
cost. -/
theorem lev_eq_mathlib (n : Nat) : ∀ s t : List α, s.length + t.length ≤ n →
    lev s t = levenshtein Levenshtein.defaultCost s t := by
  induction n with
  | zero =>
    intro s t h
    have hs : s = [] := by cases s <;> simp_all
    have ht : t = [] := by cases t <;> simp_all
    subst hs; subst ht
    rw [lev_nil_left, mathlib_lev_nil_left]
  | succ n ih =>
    intro s t hlen
    cases s with
    | nil => rw [lev_nil_left, mathlib_lev_nil_left]
    | cons x xs =>
      cases t with
      | nil => rw [lev_nil_right, mathlib_lev_nil_right]
      | cons y ys =>
        rw [lev_cons_cons, levenshtein_cons_cons,
          ih xs (y :: ys) (by simp only [List.length_cons] at hlen ⊢; omega),
          ih (x :: xs) ys (by simp only [List.length_cons] at hlen ⊢; omega),
          ih xs ys (by simp only [List.length_cons] at hlen ⊢; omega)]
        simp only [Levenshtein.defaultCost_delete, Levenshtein.defaultCost_insert,
          Levenshtein.defaultCost_substitute]
        omega

/-- C1: `computeLevenshteinDeviation` is the classic unit-cost
dynamic-programming Levenshtein distance (it equals the textbook
recursive distance `lev`, and Mathlib's `levenshtein` at unit costs);
in particular it is zero on equal strings, the length on an empty
source, satisfies the triangle inequality, and takes the documented
values on `kitten`/`sitting`, `cat`/`bat` and (case-sensitively)
`Hello`/`hello`. -/
theorem c1_levenshtein_deviation :
    (∀ s t : String, computeLevenshteinDeviation s t = lev s.data t.data) ∧
    (∀ s t : String, computeLevenshteinDeviation s t =
      levenshtein Levenshtein.defaultCost s.data t.data) ∧
    (∀ s : String, computeLevenshteinDeviation s s = 0) ∧
    (∀ s : String, computeLevenshteinDeviation "" s = s.length) ∧
    (∀ s t u : String, computeLevenshteinDeviation s u ≤
      computeLevenshteinDeviation s t + computeLevenshteinDeviation t u) ∧
    computeLevenshteinDeviation "kitten" "sitting" = 3 ∧
    computeLevenshteinDeviation "cat" "bat" = 1 ∧
    computeLevenshteinDeviation "Hello" "hello" = 1 := by
  have h1 : ∀ s t : String,
      computeLevenshteinDeviation s t = lev s.data t.data := computeLev_eq_lev
  have h2 : ∀ s t : String, computeLevenshteinDeviation s t =
      levenshtein Levenshtein.defaultCost s.data t.data := fun s t =>
    (h1 s t).trans
      (lev_eq_mathlib (s.data.length + t.data.length) s.data t.data le_rfl)
  refine ⟨h1, h2, fun s => ?_, fun s => ?_, fun s t u => ?_, ?_, ?_, ?_⟩
  · rw [h1, lev_self]
  · rw [h1, show ("" : String).data = [] from rfl, lev_nil_left]
    rfl
  · rw [h1, h1, h1]
    exact lev_triangle s.data t.data u.data
  · rw [h2]
    decide
  · rw [h2]
    decide
  · rw [h2]
    decide
